import Mathlib

/-!
Verification of the ranch-hand cache population and integrity-verification
pipeline against its specification.

The development shallowly embeds the Rust sources:
  - src/utils/checksum.rs  : manifest parsing and SHA-256 verification
  - src/commands/cache.rs  : version validation, download orchestration,
                             image-format fallback, result aggregation
  - src/client/http.rs     : certificate trust negotiation

Rust strings are modelled as lists of characters (ASCII-faithful: the
pipeline only manipulates ASCII versions, filenames and hex digests).
Rust HashMap<String, String> is modelled as a function map with
insert-overwrite semantics. Fallible Rust functions returning
anyhow::Result are modelled with Except. Asynchronous structure is
modelled with event traces and an interleaving relation.
-/

/-- Rust strings, modelled as lists of characters. -/
abbrev RStr := List Char

/-- Model of Rust str::trim (ASCII whitespace: space, tab, newline, CR). -/
def rustTrim (s : RStr) : RStr :=
  ((s.dropWhile Char.isWhitespace).reverse.dropWhile Char.isWhitespace).reverse

/-- Model of Rust str::to_lowercase restricted to ASCII (the pipeline only
lowercases hex digests and error strings, which are ASCII). -/
def rustToLower (s : RStr) : RStr := s.map Char.toLower

/-- Model of Rust char::is_ascii_hexdigit. -/
def isAsciiHexDigit (c : Char) : Bool :=
  c.isDigit || ('a' ≤ c && c ≤ 'f') || ('A' ≤ c && c ≤ 'F')

/-- Split a string at its first space character, as Rust splitn(2, ' ')
does: none when the string holds no space (one part), otherwise the text
before the first space and everything after it. -/
def splitOnFirstSpace : RStr → Option (RStr × RStr)
| [] => none
| c :: rest =>
  if c = ' ' then some ([], rest)
  else
    match splitOnFirstSpace rest with
    | some (a, b) => some (c :: a, b)
    | none => none

/-- Whether two consecutive dots occur, as Rust str::contains with the
two-character pattern dot-dot. -/
def containsDoubleDot : RStr → Bool
| [] => false
| [_] => false
| a :: b :: rest => (a = '.' && b = '.') || containsDoubleDot (b :: rest)

/-- Model of the error enum ChecksumError of src/utils/checksum.rs; the
InvalidPath case models the anyhow error raised when Path::file_name
returns None. -/
inductive ChecksumError where
| Mismatch (filename expected actual : RStr)
| NotFound (filename : RStr)
| InvalidFormat (msg : RStr)
| InvalidPath
deriving DecidableEq

/-- The checksum mapping: Rust HashMap<String, String> as a function map. -/
def CsMap := RStr → Option RStr

/-- HashMap::insert - the new binding overwrites any earlier one. -/
def csInsert (m : CsMap) (k v : RStr) : CsMap :=
  fun k' => if k' = k then some v else m k'

/-- The empty checksum map. -/
def csEmpty : CsMap := fun _ => none

/-- Outcome of processing one manifest line in parse_checksum_file:
skipped (empty or comment), an accepted entry (filename plus the raw,
trimmed first field), or a format error carrying the offending text. -/
inductive LineStep where
| skip
| entry (filename rawHash : RStr)
| bad (msg : RStr)
deriving DecidableEq

/-- One iteration of the loop of parse_checksum_file (src/utils/checksum.rs,
lines 35-61): trim the line, skip empties and comments, split at the first
space, lower-case and validate the first field as 64 hex characters, trim
the filename and strip leading binary-mode markers. -/
def parseChecksumLine (line : RStr) : LineStep :=
  let l := rustTrim line
  if l.isEmpty then .skip
  else if l.head? = some '#' then .skip
  else
    match splitOnFirstSpace l with
    | none => .bad l
    | some (p0, p1) =>
      let hash := rustToLower (rustTrim p0)
      let filename := (rustTrim p1).dropWhile (fun c => c = '*')
      if hash.length = 64 && hash.all isAsciiHexDigit then .entry filename (rustTrim p0)
      else .bad hash

/-- The fold of parse_checksum_file over the manifest lines, with the map
built so far; a bad line aborts with InvalidFormat, matching the early
return in the Rust loop. -/
def parseChecksumAux (m : CsMap) : List RStr → Except ChecksumError CsMap
| [] => .ok m
| line :: rest =>
  match parseChecksumLine line with
  | .skip => parseChecksumAux m rest
  | .entry f raw => parseChecksumAux (csInsert m f (rustToLower raw)) rest
  | .bad msg => .error (.InvalidFormat msg)

/-- parse_checksum_file (src/utils/checksum.rs, lines 32-64). The manifest
text is given as its list of lines, matching the Rust iteration over
content.lines(). -/
def parse_checksum_file (lines : List RStr) : Except ChecksumError CsMap :=
  parseChecksumAux csEmpty lines

/-- Whether an Except value is a success. -/
def exceptIsOk {ε α : Type} : Except ε α → Bool
| .ok _ => true
| .error _ => false

/-- Look a filename up in the result of parse_checksum_file; none when
parsing failed. -/
def csLookup (r : Except ChecksumError CsMap) (f : RStr) : Option RStr :=
  match r with
  | .ok m => m f
  | .error _ => none

/-- The accepted entry of a manifest line, with the raw (not yet
lower-cased) digest field, when the line is neither skipped nor bad. -/
def checksumLineEntry (line : RStr) : Option (RStr × RStr) :=
  match parseChecksumLine line with
  | .entry f raw => some (f, raw)
  | _ => none

/-- The raw digest field of the last line of the manifest that lists the
given filename. -/
def lastRawDigest (lines : List RStr) (f : RStr) : Option RStr :=
  match lines with
  | [] => none
  | line :: rest =>
    match lastRawDigest rest f with
    | some d => some d
    | none =>
      match checksumLineEntry line with
      | some (f', raw) => if f' = f then some raw else none
      | none => none

/-- Collect whitespace-separated fields, with the field read so far
reversed in the accumulator. -/
def wsFieldsAux : RStr → RStr → List RStr
| acc, [] => if acc.isEmpty then [] else [acc.reverse]
| acc, c :: rest =>
  if c.isWhitespace then
    if acc.isEmpty then wsFieldsAux [] rest else acc.reverse :: wsFieldsAux [] rest
  else
    wsFieldsAux (c :: acc) rest

/-- The whitespace-separated fields of a line (Rust str::split_whitespace).
This is the spec-side notion the claim about manifest lines is stated
with; the parser itself splits only at the first space. -/
def wsFields (s : RStr) : List RStr := wsFieldsAux [] s

/-- validate_version (src/commands/cache.rs, lines 314-335): reject empty
strings, path separators, double dots and NUL bytes. -/
def validate_version (version : RStr) : Except RStr Unit :=
  if version.isEmpty then
    .error ("Version cannot be empty".toList)
  else if version.contains '/' || version.contains '\\' || containsDoubleDot version then
    .error ("Invalid version format: version cannot contain path separators or double dots".toList)
  else if version.contains (Char.ofNat 0) then
    .error ("Invalid version format: version cannot contain null bytes".toList)
  else
    .ok ()

/-! SHA-256 (FIPS 180-4), the digest computed by calculate_file_hash via the
sha2 crate. Bytes and 32-bit words are naturals; 32-bit overflow is cut
explicitly with a modulus. -/

/-- Reduce modulo 2 to the 32. -/
def w32 (n : Nat) : Nat := n % 4294967296

/-- Rotate a 32-bit word right. -/
def rotr (n w : Nat) : Nat := w32 ((w >>> n) ||| (w <<< (32 - n)))

/-- Lower-case sigma 0 of the SHA-256 message schedule. -/
def shaSigma0 (x : Nat) : Nat := (rotr 7 x) ^^^ (rotr 18 x) ^^^ (x >>> 3)

/-- Lower-case sigma 1 of the SHA-256 message schedule. -/
def shaSigma1 (x : Nat) : Nat := (rotr 17 x) ^^^ (rotr 19 x) ^^^ (x >>> 10)

/-- Upper-case Sigma 0 of the SHA-256 compression function. -/
def shaBigSigma0 (x : Nat) : Nat := (rotr 2 x) ^^^ (rotr 13 x) ^^^ (rotr 22 x)

/-- Upper-case Sigma 1 of the SHA-256 compression function. -/
def shaBigSigma1 (x : Nat) : Nat := (rotr 6 x) ^^^ (rotr 11 x) ^^^ (rotr 25 x)

/-- The Ch function; bitwise not is xor against the 32-bit mask. -/
def shaCh (x y z : Nat) : Nat := (x &&& y) ^^^ ((x ^^^ 4294967295) &&& z)

/-- The Maj function. -/
def shaMaj (x y z : Nat) : Nat := (x &&& y) ^^^ (x &&& z) ^^^ (y &&& z)

/-- The 64 SHA-256 round constants. -/
def shaK : List Nat :=
  [1116352408, 1899447441, 3049323471, 3921009573, 961987163, 1508970993,
   2453635748, 2870763221, 3624381080, 310598401, 607225278, 1426881987,
   1925078388, 2162078206, 2614888103, 3248222580, 3835390401, 4022224774,
   264347078, 604807628, 770255983, 1249150122, 1555081692, 1996064986,
   2554220882, 2821834349, 2952996808, 3210313671, 3336571891, 3584528711,
   113926993, 338241895, 666307205, 773529912, 1294757372, 1396182291,
   1695183700, 1986661051, 2177026350, 2456956037, 2730485921, 2820302411,
   3259730800, 3345764771, 3516065817, 3600352804, 4094571909, 275423344,
   430227734, 506948616, 659060556, 883997877, 958139571, 1322822218,
   1537002063, 1747873779, 1955562222, 2024104815, 2227730452, 2361852424,
   2428436474, 2756734187, 3204031479, 3329325298]

/-- The running hash of the compression loop, eight 32-bit words. -/
structure Sha256State where
  a : Nat
  b : Nat
  c : Nat
  d : Nat
  e : Nat
  f : Nat
  g : Nat
  h : Nat

/-- The initial SHA-256 hash value. -/
def shaH0 : Sha256State :=
  ⟨1779033703,
   3144134277,
   1013904242,
   2773480762,
   1359893119,
   2600822924,
   528734635,
   1541459225⟩

/-- Extend the message schedule by the given number of words. -/
def shaScheduleGo : Nat → List Nat → List Nat
| 0, acc => acc
| n + 1, acc =>
  let t := acc.length
  let next := w32 (shaSigma1 (acc.getD (t - 2) 0) + acc.getD (t - 7) 0 +
                   shaSigma0 (acc.getD (t - 15) 0) + acc.getD (t - 16) 0)
  shaScheduleGo n (acc ++ [next])

/-- The 64-word message schedule of one 16-word block. -/
def shaSchedule (block : List Nat) : List Nat := shaScheduleGo 48 block

/-- One round of the SHA-256 compression function, consuming one round
constant paired with one schedule word. -/
def shaRound (st : Sha256State) (kw : Nat × Nat) : Sha256State :=
  let t1 := w32 (st.h + shaBigSigma1 st.e + shaCh st.e st.f st.g + kw.1 + kw.2)
  let t2 := w32 (shaBigSigma0 st.a + shaMaj st.a st.b st.c)
  ⟨w32 (t1 + t2), st.a, st.b, st.c, w32 (st.d + t1), st.e, st.f, st.g⟩

/-- Compress one 16-word block into the running hash. -/
def shaCompress (st : Sha256State) (block : List Nat) : Sha256State :=
  let fin := (List.zip shaK (shaSchedule block)).foldl shaRound st
  ⟨w32 (st.a + fin.a), w32 (st.b + fin.b), w32 (st.c + fin.c), w32 (st.d + fin.d),
   w32 (st.e + fin.e), w32 (st.f + fin.f), w32 (st.g + fin.g), w32 (st.h + fin.h)⟩

/-- Big-endian bytes of a number, most significant first, fixed width. -/
def beBytes : Nat → Nat → List Nat
| 0, _ => []
| k + 1, n => beBytes k (n >>> 8) ++ [n % 256]

/-- SHA-256 padding: a 0x80 byte, zeros to 56 modulo 64, and the bit length
as eight big-endian bytes. -/
def shaPad (msg : List Nat) : List Nat :=
  msg ++ [128] ++ List.replicate ((119 - (msg.length % 64)) % 64) 0 ++ beBytes 8 (msg.length * 8)

/-- Pack bytes into big-endian 32-bit words, four at a time. -/
def bytesToWords : List Nat → List Nat
| b0 :: b1 :: b2 :: b3 :: rest => (b3 ||| (b2 <<< 8) ||| (b1 <<< 16) ||| (b0 <<< 24)) :: bytesToWords rest
| _ => []

/-- Cut a word list into 16-word blocks. -/
def chunk16 : List Nat → List (List Nat)
| [] => []
| w :: ws => ((w :: ws).take 16) :: chunk16 ((w :: ws).drop 16)
termination_by l => l.length
decreasing_by simp [List.length_drop]; omega

/-- The four big-endian bytes of a 32-bit word. -/
def wordBytes (w : Nat) : List Nat :=
  [(w >>> 24) % 256, (w >>> 16) % 256, (w >>> 8) % 256, w % 256]

/-- SHA-256 of a byte sequence, as its 32 digest bytes. -/
def sha256 (msg : List Nat) : List Nat :=
  let st := (chunk16 (bytesToWords (shaPad msg))).foldl shaCompress shaH0
  wordBytes st.a ++ wordBytes st.b ++ wordBytes st.c ++ wordBytes st.d ++
  wordBytes st.e ++ wordBytes st.f ++ wordBytes st.g ++ wordBytes st.h

/-- The lowercase hex character of a value below 16, as the hex crate and
sha256sum render digests. -/
def hexDigitChar (n : Nat) : Char :=
  if n < 10 then Char.ofNat (48 + n) else Char.ofNat (87 + n)

/-- Lowercase hex encoding of a byte sequence (Rust hex::encode). -/
def hexEncode (bs : List Nat) : RStr :=
  bs.flatMap (fun b => [hexDigitChar (b / 16), hexDigitChar (b % 16)])

/-- Flip one bit of a digest given as bytes: bit i modulo 8 of byte i
divided by 8. -/
def flipBit (bs : List Nat) (i : Nat) : List Nat :=
  bs.set (i / 8) ((bs.getD (i / 8) 0) ^^^ (1 <<< (i % 8)))

/-- A destination path; the pipeline always builds destinations as
version_dir.join(filename), so a path is modelled by its base filename,
and Path::file_name fails exactly on an empty base. -/
structure RPath where
  base : RStr
deriving DecidableEq

/-- Model of Rust Path::file_name for the joined paths this pipeline
constructs. -/
def pathFileName (p : RPath) : Option RStr :=
  if p.base.isEmpty then none else some p.base

/-- calculate_file_hash (src/utils/checksum.rs, lines 67-85): the streaming
chunked read hashes exactly the file bytes, so on a readable file the
result is the lowercase hex SHA-256 of the content. -/
def calculate_file_hash (content : List Nat) : RStr :=
  hexEncode (sha256 content)

/-- verify_file (src/utils/checksum.rs, lines 88-107): compare the computed
digest against the expected one lower-cased; on disagreement report a
Mismatch naming the file and both digests. The file content stands in for
the path read. -/
def verify_file (p : RPath) (content : List Nat) (expected_hash : RStr) : Except ChecksumError Unit :=
  let actual := calculate_file_hash content
  let expectedLower := rustToLower expected_hash
  if actual ≠ expectedLower then
    match pathFileName p with
    | none => .error .InvalidPath
    | some filename => .error (.Mismatch filename expectedLower actual)
  else
    .ok ()

/-- verify_file_from_checksums (src/utils/checksum.rs, lines 110-121): look
the base name up in the map; a missing entry is NotFound, otherwise defer
to verify_file. -/
def verify_file_from_checksums (p : RPath) (content : List Nat) (checksums : CsMap) :
    Except ChecksumError Unit :=
  match pathFileName p with
  | none => .error .InvalidPath
  | some filename =>
    match checksums filename with
    | none => .error (.NotFound filename)
    | some expected => verify_file p content expected

/-! Download orchestration. The network and filesystem are oracles: a
predicate saying which destinations already exist with non-zero size, and
a function from filename to network download outcome (error text on
failure). -/

/-- Modelled from the spec: check_existing_file is imported by
src/commands/cache.rs from src/utils/download.rs but its definition is
absent from the sources; per section 4.4 the task short-circuits as
already-successful when the destination already exists with non-zero
size, returning that path. -/
def check_existing_file (fsHas : RStr → Bool) (path : RStr) : Option RStr :=
  if fsHas path then some path else none

/-- download_with_progress (src/commands/cache.rs, lines 753-785) for one
filename: return the existing file if present, otherwise stream the
download; the certificate handling, progress display and partial-file
cleanup inside it do not affect which path or error is returned, so the
network oracle stands in for the streamed fetch. -/
def download_with_progress (fsHas : RStr → Bool) (net : RStr → Except RStr Unit)
    (filename : RStr) : Except RStr RStr :=
  match check_existing_file fsHas filename with
  | some existing => .ok existing
  | none =>
    match net filename with
    | .ok _ => .ok filename
    | .error e => .error e

/-- The loop of download_images_with_fallback over the candidate filenames,
carrying the last error; the second component records the filenames for
which a network download was attempted, in order. -/
def downloadImagesGo (fsHas : RStr → Bool) (net : RStr → Except RStr Unit) :
    List RStr → Option RStr → Except RStr RStr × List RStr
| [], last => (.error (last.getD ("Failed to download airgap images".toList)), [])
| f :: rest, _ =>
  match check_existing_file fsHas f with
  | some existing => (.ok existing, [])
  | none =>
    match download_with_progress fsHas net f with
    | .ok p => (.ok p, [f])
    | .error e =>
      let r := downloadImagesGo fsHas net rest (some e)
      (r.1, f :: r.2)

/-- The three candidate image-bundle filenames, most compressed first
(src/commands/cache.rs, lines 794-798). -/
def imageFormats (arch : RStr) : List RStr :=
  [("k3s-airgap-images-".toList ++ arch ++ ".tar.zst".toList),
   ("k3s-airgap-images-".toList ++ arch ++ ".tar.gz".toList),
   ("k3s-airgap-images-".toList ++ arch ++ ".tar".toList)]

/-- download_images_with_fallback (src/commands/cache.rs, lines 787-826):
try the candidates in order, return the first success, and when every
candidate fails return the last error. -/
def download_images_with_fallback (fsHas : RStr → Bool) (net : RStr → Except RStr Unit)
    (arch : RStr) : Except RStr RStr × List RStr :=
  downloadImagesGo fsHas net (imageFormats arch) none

/-! Certificate trust negotiation (src/client/http.rs). -/

/-- HttpClientConfig (src/client/http.rs, lines 49-56). -/
structure HttpClientConfig where
  insecure : Bool
  interactive : Bool
  timeout_secs : Nat
deriving DecidableEq

/-- DEFAULT_API_TIMEOUT_SECS. -/
def DEFAULT_API_TIMEOUT_SECS : Nat := 30

/-- DEFAULT_DOWNLOAD_TIMEOUT_SECS. -/
def DEFAULT_DOWNLOAD_TIMEOUT_SECS : Nat := 600

/-- HttpClientConfig::new (src/client/http.rs, lines 70-76). -/
def HttpClientConfig.new (insecure : Bool) : HttpClientConfig :=
  ⟨insecure, !insecure, DEFAULT_API_TIMEOUT_SECS⟩

/-- HttpClientConfig::with_timeout (src/client/http.rs, lines 79-85). -/
def HttpClientConfig.with_timeout (insecure : Bool) (timeout_secs : Nat) : HttpClientConfig :=
  ⟨insecure, !insecure, timeout_secs⟩

/-- HttpClientConfig::for_downloads (src/client/http.rs, lines 88-94). -/
def HttpClientConfig.for_downloads (insecure : Bool) : HttpClientConfig :=
  ⟨insecure, !insecure, DEFAULT_DOWNLOAD_TIMEOUT_SECS⟩

/-- HttpClientConfig::for_downloads_with_timeout (src/client/http.rs,
lines 97-103). -/
def HttpClientConfig.for_downloads_with_timeout (insecure : Bool) (timeout_secs : Nat) :
    HttpClientConfig :=
  ⟨insecure, !insecure, timeout_secs⟩

/-- The Default impl of HttpClientConfig (src/client/http.rs, lines 58-66). -/
def HttpClientConfig.mkDefault : HttpClientConfig :=
  ⟨false, true, DEFAULT_API_TIMEOUT_SECS⟩

/-- Whether the haystack starts with the pattern. -/
def listStartsWith : RStr → RStr → Bool
| _, [] => true
| [], _ :: _ => false
| a :: as', b :: bs => a = b && listStartsWith as' bs

/-- Rust str::contains with a string pattern: some suffix of the haystack
starts with the pattern. -/
def containsSub : RStr → RStr → Bool
| [], pat => pat.isEmpty
| s@(_ :: rest), pat => listStartsWith s pat || containsSub rest pat

/-- The reqwest error surfaced by a failed send: its display text and its
connect-failure classification (is_connect). -/
structure ReqwestError where
  msg : RStr
  isConnect : Bool

/-- is_certificate_error (src/client/http.rs, lines 161-168). -/
def is_certificate_error (e : ReqwestError) : Bool :=
  let s := rustToLower e.msg
  containsSub s ("certificate".toList) || containsSub s ("ssl".toList) ||
  containsSub s ("tls".toList) || containsSub s ("self signed".toList) ||
  containsSub s ("unable to get local issuer".toList)

/-- extract_cert_error_reason (src/client/http.rs, lines 242-260). -/
def extract_cert_error_reason (e : ReqwestError) : RStr :=
  if containsSub e.msg ("self signed".toList) || containsSub e.msg ("SELF_SIGNED".toList) then
    "Self-signed certificate in chain".toList
  else if containsSub e.msg ("unable to get local issuer".toList) then
    "Unable to verify certificate chain".toList
  else if containsSub e.msg ("certificate has expired".toList) then
    "Certificate has expired".toList
  else if containsSub e.msg ("hostname mismatch".toList) then
    "Certificate hostname mismatch".toList
  else
    "Certificate error: ".toList ++ e.msg

/-- detect_corporate_proxy (src/client/http.rs, lines 263-268). -/
def detect_corporate_proxy (reason : RStr) : Bool :=
  let lower := rustToLower reason
  containsSub lower ("self signed".toList) || containsSub lower ("self_signed".toList) ||
  containsSub lower ("unable to get local issuer".toList)

/-- HttpClientError (src/client/http.rs, lines 31-39), plus a case for the
contexted failure of the one insecure retry, which the Rust propagates as
a plain anyhow error rather than an HttpClientError. -/
inductive HttpClientError where
| CertificateError (domain reason : RStr)
| ConnectionRefused
| RequestFailed (msg : RStr)
| InsecureRetryFailed (msg : RStr)
deriving DecidableEq

/-- The outcome of the operator consent prompt: an answer, or a failure of
the prompt itself (Confirm::interact returning Err). -/
inductive PromptOutcome where
| answered (b : Bool)
| failed
deriving DecidableEq

/-- Observable interactions of the certificate negotiation. -/
inductive CEvent where
| prompted
| insecureRetry
deriving DecidableEq

/-- The environment of one certificate negotiation: whether stdin is a
terminal, what the consent prompt yields, and what the single retry with
the fully insecure client would return. -/
structure CertEnv (R : Type) where
  stdinIsTerminal : Bool
  promptResult : PromptOutcome
  retryResult : Except RStr R

/-- handle_certificate_error (src/client/http.rs, lines 171-228), with the
emitted interaction events. The external URL parser behind extract_domain
is a parameter. A failed prompt defaults the answer to false (the
unwrap_or_else), declining falls through to the certificate error, and
consent triggers exactly one retry with the insecure client. -/
def handle_certificate_error {R : Type} (cfg : HttpClientConfig) (url : RStr)
    (err : ReqwestError) (extractDomain : RStr → RStr) (env : CertEnv R) :
    Except HttpClientError R × List CEvent :=
  let domain := extractDomain url
  let reason := extract_cert_error_reason err
  if cfg.insecure then
    (.error (.CertificateError domain reason), [])
  else if cfg.interactive && env.stdinIsTerminal then
    let proceed := match env.promptResult with
      | .answered b => b
      | .failed => false
    if proceed then
      match env.retryResult with
      | .ok resp => (.ok resp, [.prompted, .insecureRetry])
      | .error e => (.error (.InsecureRetryFailed e), [.prompted, .insecureRetry])
    else
      (.error (.CertificateError domain reason), [.prompted])
  else
    (.error (.CertificateError domain reason), [])

/-- request_with_cert_handling (src/client/http.rs, lines 138-158): the
outcome of the first, configured-client attempt is given; certificate
errors go to the negotiation, connect errors become ConnectionRefused,
everything else RequestFailed. -/
def request_with_cert_handling {R : Type} (cfg : HttpClientConfig) (url : RStr)
    (firstResult : Except ReqwestError R) (extractDomain : RStr → RStr) (env : CertEnv R) :
    Except HttpClientError R × List CEvent :=
  match firstResult with
  | .ok r => (.ok r, [])
  | .error e =>
    if is_certificate_error e then
      handle_certificate_error cfg url e extractDomain env
    else if e.isConnect then
      (.error .ConnectionRefused, [])
    else
      (.error (.RequestFailed e.msg), [])

/-! Result aggregation (src/commands/cache.rs, lines 512-695). -/

/-- DownloadResult (src/commands/cache.rs, lines 513-519), without the
progress bar, which only drives the display: the download outcome (error
display text on failure) and, when the download succeeded, the
verification outcome computed by download_and_verify. -/
structure DownloadResult where
  filename : RStr
  result : Except RStr RPath
  verification : Option (Except ChecksumError Unit)

/-- The file name used in the aggregation messages: the base name of the
downloaded path, or the literal unknown (src/commands/cache.rs,
lines 616-625). -/
def fileNameOrUnknown (p : RPath) : RStr :=
  (pathFileName p).getD ("unknown".toList)

/-- The download-error lines collected by the loop of
process_download_results (src/commands/cache.rs, lines 673-678): one per
failed download, naming the file and the error, pushed in result order
and regardless of force mode. -/
def downloadErrorsOf (results : List DownloadResult) : List RStr :=
  results.filterMap (fun d =>
    match d.result with
    | .error e => some (d.filename ++ (": ".toList) ++ e)
    | .ok _ => none)

/-- The verification-error lines collected by the loop of
process_download_results (src/commands/cache.rs, lines 635-663): one per
failed verification of a successful download, skipped entirely under
force mode (downgraded to a warning), naming the file with a fixed
message. -/
def verificationErrorsOf (results : List DownloadResult) (force : Bool) : List RStr :=
  results.filterMap (fun d =>
    match d.result, d.verification with
    | .ok p, some (.error _) =>
      if force then none
      else some (fileNameOrUnknown p ++ (": checksum verification failed".toList))
    | _, _ => none)

/-- process_download_results (src/commands/cache.rs, lines 608-695): the
hard errors are the download errors followed by the verification errors,
and the run fails exactly when some hard error exists. The error payload
is the list of per-file error lines joined into the aggregate message by
the Rust. -/
def process_download_results (results : List DownloadResult) (force : Bool) :
    Except (List RStr) Unit :=
  let all_errors := downloadErrorsOf results ++ verificationErrorsOf results force
  if all_errors.isEmpty then .ok () else .error all_errors

/-! Temporal structure of populate (src/commands/cache.rs, lines 405-456,
521-606). populate awaits download_checksums before
download_remaining_files, which joins one download_and_verify future per
non-manifest artifact; each future verifies as a continuation of its own
download. A run is an event trace: the manifest phase, then any
interleaving of the two task traces, then the final binary re-check of
verify_and_print_success when aggregation succeeded. -/

/-- Observable events of one populate run. -/
inductive PEvent where
| manifestDownloaded
| manifestParsed
| dispatched (filename : RStr)
| downloadDone (filename : RStr) (ok : Bool)
| verifiedFile (filename : RStr)
deriving DecidableEq

/-- The local trace of one download_and_verify task
(src/commands/cache.rs, lines 568-606): the download is dispatched and
completes, and verification runs right after completion exactly when the
download succeeded. -/
def taskTrace (filename : RStr) (ok : Bool) : List PEvent :=
  [.dispatched filename, .downloadDone filename ok] ++
  (if ok then [.verifiedFile filename] else [])

/-- An interleaving of two traces that keeps the order within each. -/
inductive Interleave {α : Type} : List α → List α → List α → Prop where
| nil : Interleave [] [] []
| left {x : α} {xs ys zs : List α} : Interleave xs ys zs → Interleave (x :: xs) ys (x :: zs)
| right {y : α} {xs ys zs : List α} : Interleave xs ys zs → Interleave xs (y :: ys) (y :: zs)

/-- In a list, every occurrence of b comes after an occurrence of a. -/
def Precedes {α : Type} (a b : α) (l : List α) : Prop :=
  ∀ pre suf, l = pre ++ b :: suf → a ∈ pre

/-- The full populate trace around a concurrent phase t: the manifest is
downloaded and parsed first (download_checksums is awaited before
download_remaining_files), and when aggregation succeeds and the binary
was downloaded, verify_and_print_success re-verifies the binary once more
(src/commands/cache.rs, lines 697-731). -/
def populateFull (binaryName : RStr) (aggOk okBinary : Bool) (t : List PEvent) : List PEvent :=
  [PEvent.manifestDownloaded, PEvent.manifestParsed] ++ t ++
  (if aggOk && okBinary then [PEvent.verifiedFile binaryName] else [])

/-! Theorems. -/

theorem containsDoubleDot_iff (v : RStr) :
    containsDoubleDot v = true ↔ ∃ pre suf, v = pre ++ '.' :: '.' :: suf := by
  induction v with
  | nil =>
    simp only [containsDoubleDot, Bool.false_eq_true, false_iff]
    rintro ⟨pre, suf, h⟩
    exact absurd h (by simp)
  | cons a t ih =>
    cases t with
    | nil =>
      simp only [containsDoubleDot, Bool.false_eq_true, false_iff]
      rintro ⟨pre, suf, h⟩
      rcases pre with _ | ⟨p, _ | ⟨q, ps⟩⟩ <;> simp_all
    | cons b r =>
      rw [show containsDoubleDot (a :: b :: r) = ((a = '.' && b = '.') || containsDoubleDot (b :: r)) from rfl]
      constructor
      · intro h
        rcases Bool.or_eq_true_iff.mp h with h | h
        · rcases Bool.and_eq_true_iff.mp h with ⟨h1, h2⟩
          exact ⟨[], r, by simp_all [decide_eq_true_iff]⟩
        · obtain ⟨pre, suf, hps⟩ := ih.mp h
          exact ⟨a :: pre, suf, by simp [hps]⟩
      · rintro ⟨pre, suf, hps⟩
        rcases pre with _ | ⟨p, ps⟩
        · simp at hps
          simp [hps.1, hps.2.1]
        · simp only [List.cons_append, List.cons.injEq] at hps
          exact Bool.or_eq_true_iff.mpr (.inr (ih.mpr ⟨ps, suf, hps.2⟩))

/-- C4: validate_version rejects a version string if and only if it is
empty or contains a slash, a backslash, two consecutive dots, or a NUL
byte; every other string (in particular any string with plus signs and
single dots) is accepted. -/
theorem C4_validate_version (v : RStr) :
    (∃ e, validate_version v = .error e) ↔
      (v = [] ∨ '/' ∈ v ∨ '\\' ∈ v ∨ (∃ pre suf, v = pre ++ '.' :: '.' :: suf) ∨
        Char.ofNat 0 ∈ v) := by
  unfold validate_version
  split_ifs with h1 h2 h3
  · simp_all
  · constructor
    · intro _
      rcases Bool.or_eq_true_iff.mp h2 with h | h
      · rcases Bool.or_eq_true_iff.mp h with h | h
        · exact .inr (.inl (by simpa using h))
        · exact .inr (.inr (.inl (by simpa using h)))
      · exact .inr (.inr (.inr (.inl ((containsDoubleDot_iff v).mp h))))
    · intro _
      exact ⟨_, rfl⟩
  · constructor
    · intro _
      exact .inr (.inr (.inr (.inr (by simpa using h3))))
    · intro _
      exact ⟨_, rfl⟩
  · constructor
    · rintro ⟨e, he⟩
      cases he
    · intro h
      exfalso
      rcases h with h | h | h | h | h
      · simp_all
      · simp_all
      · simp_all
      · exact absurd ((containsDoubleDot_iff v).mpr h) (by simp_all)
      · simp_all

/-- C1: the claim says a successfully downloaded file with no manifest
entry is Unverified and never a hard error, so the run still succeeds in
non-force mode. The code disagrees: download_and_verify wraps the
NotFound of verify_file_from_checksums into a Some-error verification
outcome, and process_download_results treats every Some-error
verification as a hard error when force is off - its arm for files
without checksums (the None arm marked as success) is unreachable for a
successful download. At this concrete run, with the binary downloaded and
verified and the image bundle downloaded via the plain tar fallback but
absent from the manifest, the run fails in non-force mode and succeeds
only under force. -/
theorem C1_notfound_fails_run :
    process_download_results
      [⟨("k3s".toList), .ok ⟨"k3s".toList⟩, some (.ok ())⟩,
       ⟨("k3s-airgap-images-amd64.tar.zst".toList), .ok ⟨"k3s-airgap-images-amd64.tar".toList⟩,
        some (.error (.NotFound ("k3s-airgap-images-amd64.tar".toList)))⟩]
      false
      = .error [("k3s-airgap-images-amd64.tar: checksum verification failed".toList)]
    ∧ process_download_results
      [⟨("k3s".toList), .ok ⟨"k3s".toList⟩, some (.ok ())⟩,
       ⟨("k3s-airgap-images-amd64.tar.zst".toList), .ok ⟨"k3s-airgap-images-amd64.tar".toList⟩,
        some (.error (.NotFound ("k3s-airgap-images-amd64.tar".toList)))⟩]
      true
      = .ok () := by
  constructor
  · rfl
  · rfl

/-- C2, counterexample: in a run whose only failure is one checksum
mismatch, non-force aggregation yields exactly one hard error line, but
that line names only the file - neither the expected nor the actual
digest occurs in it, contradicting the claim that the aggregate failure
names the mismatching digests. -/
theorem C2_counterexample :
    process_download_results
      [⟨("k3s".toList), .ok ⟨"k3s".toList⟩,
        some (.error (.Mismatch ("k3s".toList) (List.replicate 64 'a') (List.replicate 64 'b')))⟩]
      false
      = .error [("k3s: checksum verification failed".toList)]
    ∧ containsSub ("k3s: checksum verification failed".toList) (List.replicate 64 'a') = false
    ∧ containsSub ("k3s: checksum verification failed".toList) (List.replicate 64 'b') = false := by
  refine ⟨rfl, ?_, ?_⟩ <;> decide

/-- C2, amended: a download failure is always a hard error regardless of
force mode, carrying the failing file's name and error text; when every
download succeeded, force mode downgrades all verification failures and
the run succeeds with the files kept; and when exactly one result carries
a failed verification and everything else downloaded and verified, the
non-force aggregate failure holds exactly one hard error naming that
file (the digests appear in the Mismatch outcome itself, not in the
aggregate message). -/
theorem C2_aggregation_policy :
    (∀ (results : List DownloadResult) (force : Bool) (d : DownloadResult) (e : RStr),
      d ∈ results → d.result = .error e →
      ∃ errs, process_download_results results force = .error errs ∧
        (d.filename ++ (": ".toList) ++ e) ∈ errs)
    ∧ (∀ results : List DownloadResult,
        (∀ d ∈ results, exceptIsOk d.result = true) →
        process_download_results results true = .ok ())
    ∧ (∀ (pre suf : List DownloadResult) (d : DownloadResult) (p : RPath)
        (ce : ChecksumError),
        (∀ x ∈ pre ++ suf, exceptIsOk x.result = true ∧
          (x.verification = some (.ok ()) ∨ x.verification = none)) →
        d.result = .ok p → d.verification = some (.error ce) →
        process_download_results (pre ++ d :: suf) false =
          .error [fileNameOrUnknown p ++ (": checksum verification failed".toList)]) := by
  refine ⟨?_, ?_, ?_⟩
  · intro results force d e hmem he
    have hmem' : (d.filename ++ (": ".toList) ++ e) ∈ downloadErrorsOf results :=
      List.mem_filterMap.mpr ⟨d, hmem, by rw [he]⟩
    have hne : (downloadErrorsOf results ++ verificationErrorsOf results force).isEmpty ≠ true := by
      simp only [List.isEmpty_iff, List.append_eq_nil, ne_eq]
      rintro ⟨h1, -⟩
      rw [h1] at hmem'
      cases hmem'
    refine ⟨downloadErrorsOf results ++ verificationErrorsOf results force, ?_,
      List.mem_append.mpr (.inl hmem')⟩
    unfold process_download_results
    exact if_neg hne
  · intro results h
    have h1 : downloadErrorsOf results = [] := by
      rw [downloadErrorsOf, List.filterMap_eq_nil_iff]
      intro d hd
      rcases hr : d.result with p | e
      · have := h d hd
        rw [hr] at this
        simp [exceptIsOk] at this
      · simp
    have h2 : verificationErrorsOf results true = [] := by
      rw [verificationErrorsOf, List.filterMap_eq_nil_iff]
      intro d hd
      rcases hr : d.result with e | p <;> rcases hv : d.verification with _ | v
      all_goals try rfl
      rcases v with _ | ce <;> rfl
    unfold process_download_results
    simp [h1, h2]
  · intro pre suf d p ce hrest hd hv
    have hdl : downloadErrorsOf (pre ++ d :: suf) = [] := by
      rw [downloadErrorsOf, List.filterMap_eq_nil_iff]
      intro x hx
      have hok : exceptIsOk x.result = true := by
        rcases List.mem_append.mp hx with hx' | hx'
        · exact (hrest x (List.mem_append.mpr (.inl hx'))).1
        · rcases List.mem_cons.mp hx' with rfl | hx''
          · rw [hd]; rfl
          · exact (hrest x (List.mem_append.mpr (.inr hx''))).1
      rcases hr : x.result with p' | e'
      · rw [hr] at hok
        simp [exceptIsOk] at hok
      · simp
    have hverNil : ∀ l : List DownloadResult, (∀ x ∈ l, x ∈ pre ++ suf) →
        verificationErrorsOf l false = [] := by
      intro l hl
      rw [verificationErrorsOf, List.filterMap_eq_nil_iff]
      intro x hx
      obtain ⟨h1', h2'⟩ := hrest x (hl x hx)
      rcases hr : x.result with e' | p'
      all_goals rcases h2' with h2' | h2' <;> rw [h2']
    have hpre0 : verificationErrorsOf pre false = [] :=
      hverNil pre (fun x hx => List.mem_append.mpr (.inl hx))
    have hsuf0 : verificationErrorsOf suf false = [] :=
      hverNil suf (fun x hx => List.mem_append.mpr (.inr hx))
    have hver : verificationErrorsOf (pre ++ d :: suf) false =
        [fileNameOrUnknown p ++ (": checksum verification failed".toList)] := by
      unfold verificationErrorsOf at hpre0 hsuf0 ⊢
      rw [List.filterMap_append, hpre0, List.nil_append, List.filterMap_cons, hd, hv, hsuf0]
      rfl
    unfold process_download_results
    simp [hdl, hver]

theorem C2_aggregation_policy_witness :
    process_download_results
      [⟨("sha256sum-amd64.txt".toList), .ok ⟨"sha256sum-amd64.txt".toList⟩, some (.ok ())⟩,
       ⟨("k3s".toList), .ok ⟨"k3s".toList⟩,
        some (.error (.Mismatch ("k3s".toList) (List.replicate 64 'c') (List.replicate 64 'd')))⟩]
      false
      = .error [("k3s: checksum verification failed".toList)] :=
  C2_aggregation_policy.2.2
    [⟨("sha256sum-amd64.txt".toList), .ok ⟨"sha256sum-amd64.txt".toList⟩, some (.ok ())⟩] []
    ⟨("k3s".toList), .ok ⟨"k3s".toList⟩,
      some (.error (.Mismatch ("k3s".toList) (List.replicate 64 'c') (List.replicate 64 'd')))⟩
    ⟨"k3s".toList⟩
    (.Mismatch ("k3s".toList) (List.replicate 64 'c') (List.replicate 64 'd'))
    (by intro x hx
        rcases List.mem_cons.mp hx with rfl | hx'
        · exact ⟨rfl, .inl rfl⟩
        · cases hx')
    rfl rfl

theorem parseChecksumAux_lookup (lines : List RStr) : ∀ (m : CsMap) (f : RStr),
    exceptIsOk (parseChecksumAux m lines) = true →
    csLookup (parseChecksumAux m lines) f =
      (match lastRawDigest lines f with
       | some raw => some (rustToLower raw)
       | none => m f) := by
  induction lines with
  | nil => intro m f _; rfl
  | cons line rest ih =>
    intro m f hok
    rcases hstep : parseChecksumLine line with _ | ⟨f', raw⟩ | msg <;>
      simp only [parseChecksumAux, hstep] at hok ⊢ <;>
      simp only [lastRawDigest, checksumLineEntry, hstep]
    · rw [ih m f hok]
      rcases lastRawDigest rest f with _ | d <;> rfl
    · rw [ih _ f hok]
      rcases lastRawDigest rest f with _ | d
      · by_cases hf : f = f'
        · subst hf
          rw [csInsert, if_pos rfl, if_pos rfl]
        · rw [csInsert, if_neg hf, if_neg (fun h => hf h.symm)]
      · rfl
    · simp [exceptIsOk] at hok

/-- C5: when the manifest parses, looking any filename up returns exactly
the raw digest field of the last manifest line listing that filename,
normalized to lowercase, and nothing for filenames no line lists - in
particular a duplicated filename resolves to its last line. -/
theorem C5_parse_lookup (lines : List RStr) (f : RStr)
    (hok : exceptIsOk (parse_checksum_file lines) = true) :
    csLookup (parse_checksum_file lines) f = (lastRawDigest lines f).map rustToLower := by
  rw [parse_checksum_file, parseChecksumAux_lookup lines csEmpty f hok]
  rcases lastRawDigest lines f with _ | raw <;> rfl

theorem C5_parse_lookup_witness :
    exceptIsOk (parse_checksum_file
      [(List.replicate 64 'b' ++ (' ' :: 'k' :: '3' :: 's' :: [])),
       (List.replicate 64 'A' ++ (' ' :: 'k' :: '3' :: 's' :: []))]) = true
    ∧ csLookup (parse_checksum_file
      [(List.replicate 64 'b' ++ (' ' :: 'k' :: '3' :: 's' :: [])),
       (List.replicate 64 'A' ++ (' ' :: 'k' :: '3' :: 's' :: []))])
      ("k3s".toList) = some (List.replicate 64 'a') :=
  ⟨by decide,
   (C5_parse_lookup
      [(List.replicate 64 'b' ++ (' ' :: 'k' :: '3' :: 's' :: [])),
       (List.replicate 64 'A' ++ (' ' :: 'k' :: '3' :: 's' :: []))]
      ("k3s".toList) (by decide)).trans (by decide)⟩

theorem parseChecksumLine_bad_iff (line : RStr) :
    (∃ msg, parseChecksumLine line = .bad msg) ↔
      (rustTrim line ≠ [] ∧ (rustTrim line).head? ≠ some '#' ∧
        (splitOnFirstSpace (rustTrim line) = none ∨
         ∃ p0 p1, splitOnFirstSpace (rustTrim line) = some (p0, p1) ∧
           ((rustToLower (rustTrim p0)).length ≠ 64 ∨
            ¬∀ c ∈ rustToLower (rustTrim p0), isAsciiHexDigit c = true))) := by
  rw [show parseChecksumLine line =
      (if (rustTrim line).isEmpty then .skip
       else if (rustTrim line).head? = some '#' then .skip
       else
         match splitOnFirstSpace (rustTrim line) with
         | none => .bad (rustTrim line)
         | some (p0, p1) =>
           if ((rustToLower (rustTrim p0)).length = 64 &&
               (rustToLower (rustTrim p0)).all isAsciiHexDigit) then
             .entry ((rustTrim p1).dropWhile (fun c => c = '*')) (rustTrim p0)
           else .bad (rustToLower (rustTrim p0))) from rfl]
  split_ifs with h1 h2
  · simp only [List.isEmpty_iff] at h1
    constructor
    · rintro ⟨msg, h⟩
      cases h
    · rintro ⟨hne, -, -⟩
      exact absurd h1 hne
  · constructor
    · rintro ⟨msg, h⟩
      cases h
    · rintro ⟨-, hh, -⟩
      exact absurd h2 hh
  · have h1' : rustTrim line ≠ [] := by simpa [List.isEmpty_iff] using h1
    rcases hsp : splitOnFirstSpace (rustTrim line) with _ | ⟨p0, p1⟩
    · constructor
      · intro _
        exact ⟨h1', h2, .inl rfl⟩
      · intro _
        exact ⟨rustTrim line, rfl⟩
    · constructor
      · rintro ⟨msg, h⟩
        dsimp only at h
        refine ⟨h1', h2, .inr ⟨p0, p1, rfl, ?_⟩⟩
        by_cases hv : ((rustToLower (rustTrim p0)).length = 64 ∧
            ∀ c ∈ rustToLower (rustTrim p0), isAsciiHexDigit c = true)
        · exfalso
          rw [if_pos (by
            simp only [Bool.and_eq_true, decide_eq_true_iff, List.all_eq_true]
            exact ⟨hv.1, hv.2⟩)] at h
          cases h
        · rcases Decidable.not_and_iff_or_not.mp hv with hv' | hv'
          · exact .inl hv'
          · exact .inr hv'
      · rintro ⟨-, -, hnone | ⟨p0', p1', hsp', hbad⟩⟩
        · exact absurd hnone (by simp)
        · injection hsp' with hpair
          injection hpair with e0 e1
          subst e0
          subst e1
          dsimp only
          refine ⟨rustToLower (rustTrim p0), ?_⟩
          rw [if_neg]
          intro hcond
          rcases Bool.and_eq_true_iff.mp hcond with ⟨hl, ha⟩
          rcases hbad with hbad | hbad
          · exact hbad (by simpa using hl)
          · exact hbad (List.all_eq_true.mp ha)

theorem parseChecksumAux_error_iff (lines : List RStr) : ∀ m : CsMap,
    (∃ msg, parseChecksumAux m lines = .error (.InvalidFormat msg)) ↔
      ∃ line ∈ lines, ∃ msg, parseChecksumLine line = .bad msg := by
  induction lines with
  | nil =>
    intro m
    simp [parseChecksumAux]
  | cons line rest ih =>
    intro m
    rcases hstep : parseChecksumLine line with _ | ⟨f', raw⟩ | msg <;>
      simp only [parseChecksumAux, hstep]
    · rw [ih m]
      constructor
      · rintro ⟨l, hl, hbad⟩
        exact ⟨l, List.mem_cons_of_mem _ hl, hbad⟩
      · rintro ⟨l, hl, hbad⟩
        rcases List.mem_cons.mp hl with rfl | hl'
        · rcases hbad with ⟨msg, hbad⟩
          rw [hstep] at hbad
          cases hbad
        · exact ⟨l, hl', hbad⟩
    · rw [ih _]
      constructor
      · rintro ⟨l, hl, hbad⟩
        exact ⟨l, List.mem_cons_of_mem _ hl, hbad⟩
      · rintro ⟨l, hl, hbad⟩
        rcases List.mem_cons.mp hl with rfl | hl'
        · rcases hbad with ⟨msg', hbad⟩
          rw [hstep] at hbad
          cases hbad
        · exact ⟨l, hl', hbad⟩
    · constructor
      · intro _
        exact ⟨line, List.mem_cons_self _ _, msg, hstep⟩
      · intro _
        exact ⟨msg, rfl⟩

/-- C6 (amended): parse_checksum_file returns a FormatError exactly when
some non-empty, non-comment line (after trimming) contains no space
character - the parser splits only at the first space, so a
tab-separated line fails and a filename holding spaces is kept whole -
or its first space-delimited field is not 64 hexadecimal characters
after lower-casing; on accepted lines the filename is everything after
the first space, trimmed, with leading binary-mode stars stripped. -/
theorem C6_format_error_iff (lines : List RStr) :
    (∃ msg, parse_checksum_file lines = .error (.InvalidFormat msg)) ↔
      ∃ line ∈ lines, rustTrim line ≠ [] ∧ (rustTrim line).head? ≠ some '#' ∧
        (splitOnFirstSpace (rustTrim line) = none ∨
         ∃ p0 p1, splitOnFirstSpace (rustTrim line) = some (p0, p1) ∧
           ((rustToLower (rustTrim p0)).length ≠ 64 ∨
            ¬∀ c ∈ rustToLower (rustTrim p0), isAsciiHexDigit c = true)) := by
  rw [parse_checksum_file, parseChecksumAux_error_iff lines csEmpty]
  constructor
  · rintro ⟨l, hl, hbad⟩
    exact ⟨l, hl, (parseChecksumLine_bad_iff l).mp hbad⟩
  · rintro ⟨l, hl, hcond⟩
    exact ⟨l, hl, (parseChecksumLine_bad_iff l).mpr hcond⟩

/-- C6, counterexample to the claim as stated: the line of 64 hex
characters followed by space x space y splits into three
whitespace-separated fields, yet the parser accepts it (the filename
keeps the interior space); and a tab-separated line with exactly two
whitespace-separated fields, the first being 64 hex characters, is
rejected with a FormatError because it holds no space character. -/
theorem C6_counterexample :
    ((wsFields (List.replicate 64 'a' ++ (' ' :: 'x' :: ' ' :: 'y' :: []))).length = 3
     ∧ exceptIsOk (parse_checksum_file
         [List.replicate 64 'a' ++ (' ' :: 'x' :: ' ' :: 'y' :: [])]) = true
     ∧ csLookup (parse_checksum_file
         [List.replicate 64 'a' ++ (' ' :: 'x' :: ' ' :: 'y' :: [])])
         ('x' :: ' ' :: 'y' :: []) = some (List.replicate 64 'a'))
    ∧ ((wsFields (List.replicate 64 'a' ++ ('\t' :: 'k' :: '3' :: 's' :: []))).length = 2
       ∧ (wsFields (List.replicate 64 'a' ++ ('\t' :: 'k' :: '3' :: 's' :: []))).getD 0 []
           = List.replicate 64 'a'
       ∧ exceptIsOk (parse_checksum_file
           [List.replicate 64 'a' ++ ('\t' :: 'k' :: '3' :: 's' :: [])]) = false) := by
  decide

theorem wordBytes_lt (w : Nat) : ∀ b ∈ wordBytes w, b < 256 := by
  intro b hb
  simp only [wordBytes, List.mem_cons, List.not_mem_nil, or_false] at hb
  rcases hb with rfl | rfl | rfl | rfl <;> exact Nat.mod_lt _ (by omega)

theorem sha256_lt (msg : List Nat) : ∀ b ∈ sha256 msg, b < 256 := by
  intro b hb
  simp only [sha256, List.mem_append] at hb
  rcases hb with ((((((h | h) | h) | h) | h) | h) | h) | h <;> exact wordBytes_lt _ b h

theorem sha256_length (msg : List Nat) : (sha256 msg).length = 32 := by
  simp [sha256, wordBytes]

theorem hexDigitChar_toLower_fixed : ∀ n : Fin 16, Char.toLower (hexDigitChar n.val) = hexDigitChar n.val := by
  decide

theorem hexDigitChar_injOn : ∀ a b : Fin 16, hexDigitChar a.val = hexDigitChar b.val → a = b := by
  decide

theorem rustToLower_hexEncode (bs : List Nat) (h : ∀ b ∈ bs, b < 256) :
    rustToLower (hexEncode bs) = hexEncode bs := by
  induction bs with
  | nil => rfl
  | cons b t ih =>
    have hb : b < 256 := h b (List.mem_cons_self _ _)
    have hdiv : b / 16 < 16 := by omega
    have hmod : b % 16 < 16 := by omega
    have h1 : Char.toLower (hexDigitChar (b / 16)) = hexDigitChar (b / 16) :=
      hexDigitChar_toLower_fixed ⟨b / 16, hdiv⟩
    have h2 : Char.toLower (hexDigitChar (b % 16)) = hexDigitChar (b % 16) :=
      hexDigitChar_toLower_fixed ⟨b % 16, hmod⟩
    have ht := ih (fun x hx => h x (List.mem_cons_of_mem _ hx))
    simp only [hexEncode, List.flatMap_cons, rustToLower, List.map_append, List.map_cons,
      List.map_nil, h1, h2] at ht ⊢
    rw [ht]

theorem hexEncode_injOn : ∀ xs ys : List Nat, (∀ b ∈ xs, b < 256) → (∀ b ∈ ys, b < 256) →
    hexEncode xs = hexEncode ys → xs = ys := by
  intro xs
  induction xs with
  | nil =>
    intro ys _ _ h
    cases ys with
    | nil => rfl
    | cons y t => simp [hexEncode] at h
  | cons x t ih =>
    intro ys hx hy h
    cases ys with
    | nil => simp [hexEncode] at h
    | cons y u =>
      simp only [hexEncode, List.flatMap_cons, List.cons_append, List.nil_append,
        List.cons.injEq] at h
      obtain ⟨h1, h2, h3⟩ := h
      have hx' : x < 256 := hx x (List.mem_cons_self _ _)
      have hy' : y < 256 := hy y (List.mem_cons_self _ _)
      have e1 : x / 16 = y / 16 := by
        have := hexDigitChar_injOn ⟨x / 16, by omega⟩ ⟨y / 16, by omega⟩ h1
        exact congrArg Fin.val this
      have e2 : x % 16 = y % 16 := by
        have := hexDigitChar_injOn ⟨x % 16, by omega⟩ ⟨y % 16, by omega⟩ h2
        exact congrArg Fin.val this
      have exy : x = y := by omega
      subst exy
      rw [ih u (fun b hb => hx b (List.mem_cons_of_mem _ hb))
        (fun b hb => hy b (List.mem_cons_of_mem _ hb)) h3]

theorem xor_pow_ne (x p : Nat) (hp : p ≠ 0) : x ^^^ p ≠ x := by
  intro heq
  apply hp
  have h2 : x ^^^ (x ^^^ p) = x ^^^ x := congrArg (fun z => x ^^^ z) heq
  rw [← Nat.xor_assoc, Nat.xor_self, Nat.zero_xor] at h2
  rw [h2]

theorem flipBit_ne (bs : List Nat) (i : Nat) (hi : i / 8 < bs.length) : flipBit bs i ≠ bs := by
  intro heq
  have hvne : bs.getD (i / 8) 0 ^^^ (1 <<< (i % 8)) ≠ bs.getD (i / 8) 0 := by
    rw [Nat.one_shiftLeft]
    exact xor_pow_ne _ _ (Nat.pos_iff_ne_zero.mp (Nat.pos_pow_of_pos _ (by omega)))
  apply hvne
  have hset : (bs.set (i / 8) (bs.getD (i / 8) 0 ^^^ (1 <<< (i % 8)))).getD (i / 8) 0 =
      bs.getD (i / 8) 0 ^^^ (1 <<< (i % 8)) := by
    rw [List.getD_eq_getElem _ _ (by rw [List.length_set]; exact hi)]
    exact List.getElem_set_self _
  rw [flipBit] at heq
  rw [← hset, heq]

theorem flipBit_lt (bs : List Nat) (i : Nat) (h : ∀ b ∈ bs, b < 256) :
    ∀ b ∈ flipBit bs i, b < 256 := by
  intro b hb
  rcases List.mem_or_eq_of_mem_set hb with hb' | rfl
  · exact h b hb'
  · have hold : bs.getD (i / 8) 0 < 256 := by
      by_cases hlt : i / 8 < bs.length
      · rw [List.getD_eq_getElem _ _ hlt]
        exact h _ (List.getElem_mem hlt)
      · rw [List.getD_eq_default _ _ (by omega)]
        omega
    have hpow : (1 <<< (i % 8)) < 256 := by
      rw [Nat.one_shiftLeft]
      calc (2:Nat) ^ (i % 8) < 2 ^ 8 := Nat.pow_lt_pow_right (by omega) (Nat.mod_lt _ (by omega))
      _ = 256 := by norm_num
    have : bs.getD (i / 8) 0 ^^^ (1 <<< (i % 8)) < 2 ^ 8 :=
      Nat.xor_lt_two_pow (by omega) (by omega)
    omega

/-- C3: for every byte content, verifying the file against the lowercase
hex SHA-256 digest of that content succeeds; against the digest with any
one bit flipped it fails with a Mismatch carrying both the expected
(flipped) and the actual digest; and a filename absent from the checksum
map yields NotFound, a constructor distinct from Mismatch. -/
theorem C3_verify (C : List (Fin 256)) (name : RStr) (i : Fin 256) (m : CsMap)
    (hname : name ≠ []) (hm : m name = none) :
    verify_file ⟨name⟩ (C.map Fin.val) (hexEncode (sha256 (C.map Fin.val))) = .ok ()
    ∧ verify_file ⟨name⟩ (C.map Fin.val) (hexEncode (flipBit (sha256 (C.map Fin.val)) i.val)) =
        .error (.Mismatch name (hexEncode (flipBit (sha256 (C.map Fin.val)) i.val))
                 (hexEncode (sha256 (C.map Fin.val))))
    ∧ verify_file_from_checksums ⟨name⟩ (C.map Fin.val) m = .error (.NotFound name)
    ∧ (∀ f e a, ChecksumError.NotFound name ≠ ChecksumError.Mismatch f e a) := by
  have hd : ∀ b ∈ sha256 (C.map Fin.val), b < 256 := sha256_lt _
  have hlen : (sha256 (C.map Fin.val)).length = 32 := sha256_length _
  have hflt : ∀ b ∈ flipBit (sha256 (C.map Fin.val)) i.val, b < 256 := flipBit_lt _ _ hd
  have hlow : rustToLower (hexEncode (sha256 (C.map Fin.val))) = hexEncode (sha256 (C.map Fin.val)) :=
    rustToLower_hexEncode _ hd
  have hlow2 : rustToLower (hexEncode (flipBit (sha256 (C.map Fin.val)) i.val)) =
      hexEncode (flipBit (sha256 (C.map Fin.val)) i.val) :=
    rustToLower_hexEncode _ hflt
  have hne : hexEncode (sha256 (C.map Fin.val)) ≠
      hexEncode (flipBit (sha256 (C.map Fin.val)) i.val) := by
    intro h
    exact flipBit_ne (sha256 (C.map Fin.val)) i.val (by omega)
      (hexEncode_injOn _ _ hflt hd h.symm)
  have hbase : pathFileName ⟨name⟩ = some name := by
    rw [pathFileName]
    simp [List.isEmpty_iff, hname]
  refine ⟨?_, ?_, ?_, ?_⟩
  · rw [verify_file]
    simp [calculate_file_hash, hlow]
  · rw [verify_file]
    simp only [calculate_file_hash, hlow2]
    rw [if_pos hne, hbase]
  · rw [verify_file_from_checksums, hbase]
    dsimp only
    rw [hm]
  · intro f e a h
    exact ChecksumError.noConfusion h

theorem C3_verify_witness :
    (("k3s".toList : RStr) ≠ []) ∧ csEmpty ("k3s".toList) = none
    ∧ verify_file ⟨"k3s".toList⟩ (([] : List (Fin 256)).map Fin.val)
        (hexEncode (sha256 (([] : List (Fin 256)).map Fin.val))) = .ok ()
    ∧ verify_file_from_checksums ⟨"k3s".toList⟩ (([] : List (Fin 256)).map Fin.val) csEmpty =
        .error (.NotFound ("k3s".toList)) :=
  ⟨by decide, rfl,
   (C3_verify [] ("k3s".toList) 0 csEmpty (by decide) rfl).1,
   (C3_verify [] ("k3s".toList) 0 csEmpty (by decide) rfl).2.2.1⟩

theorem downloadImagesGo_cons_ok (fsHas : RStr → Bool) (net : RStr → Except RStr Unit)
    (f : RStr) (rest : List RStr) (last : Option RStr)
    (hf : fsHas f = false) (h : net f = .ok ()) :
    downloadImagesGo fsHas net (f :: rest) last = (.ok f, [f]) := by
  simp [downloadImagesGo, download_with_progress, check_existing_file, hf, h]

theorem downloadImagesGo_cons_err (fsHas : RStr → Bool) (net : RStr → Except RStr Unit)
    (f : RStr) (rest : List RStr) (last : Option RStr) (e : RStr)
    (hf : fsHas f = false) (h : net f = .error e) :
    downloadImagesGo fsHas net (f :: rest) last =
      ((downloadImagesGo fsHas net rest (some e)).1,
       f :: (downloadImagesGo fsHas net rest (some e)).2) := by
  simp [downloadImagesGo, download_with_progress, check_existing_file, hf, h]

/-- C7: in a fresh cache directory the image-bundle download tries the
three candidate filenames in order most-compressed first, returns the
path of the first candidate whose download succeeds, attempts no later
candidate (the attempt trace stops at the success), and when all three
fail returns the error of the last attempt. -/
theorem C7_image_fallback (arch : RStr) (fsHas : RStr → Bool) (net : RStr → Except RStr Unit)
    (hfresh : ∀ f, fsHas f = false) :
    (net ("k3s-airgap-images-".toList ++ arch ++ ".tar.zst".toList) = .ok () →
      download_images_with_fallback fsHas net arch =
        (.ok ("k3s-airgap-images-".toList ++ arch ++ ".tar.zst".toList),
         [("k3s-airgap-images-".toList ++ arch ++ ".tar.zst".toList)]))
    ∧ (∀ e1, net ("k3s-airgap-images-".toList ++ arch ++ ".tar.zst".toList) = .error e1 →
        net ("k3s-airgap-images-".toList ++ arch ++ ".tar.gz".toList) = .ok () →
        download_images_with_fallback fsHas net arch =
          (.ok ("k3s-airgap-images-".toList ++ arch ++ ".tar.gz".toList),
           [("k3s-airgap-images-".toList ++ arch ++ ".tar.zst".toList),
            ("k3s-airgap-images-".toList ++ arch ++ ".tar.gz".toList)]))
    ∧ (∀ e1 e2, net ("k3s-airgap-images-".toList ++ arch ++ ".tar.zst".toList) = .error e1 →
        net ("k3s-airgap-images-".toList ++ arch ++ ".tar.gz".toList) = .error e2 →
        net ("k3s-airgap-images-".toList ++ arch ++ ".tar".toList) = .ok () →
        download_images_with_fallback fsHas net arch =
          (.ok ("k3s-airgap-images-".toList ++ arch ++ ".tar".toList),
           [("k3s-airgap-images-".toList ++ arch ++ ".tar.zst".toList),
            ("k3s-airgap-images-".toList ++ arch ++ ".tar.gz".toList),
            ("k3s-airgap-images-".toList ++ arch ++ ".tar".toList)]))
    ∧ (∀ e1 e2 e3, net ("k3s-airgap-images-".toList ++ arch ++ ".tar.zst".toList) = .error e1 →
        net ("k3s-airgap-images-".toList ++ arch ++ ".tar.gz".toList) = .error e2 →
        net ("k3s-airgap-images-".toList ++ arch ++ ".tar".toList) = .error e3 →
        download_images_with_fallback fsHas net arch =
          (.error e3,
           [("k3s-airgap-images-".toList ++ arch ++ ".tar.zst".toList),
            ("k3s-airgap-images-".toList ++ arch ++ ".tar.gz".toList),
            ("k3s-airgap-images-".toList ++ arch ++ ".tar".toList)])) := by
  refine ⟨?_, ?_, ?_, ?_⟩
  · intro h1
    rw [download_images_with_fallback, imageFormats,
      downloadImagesGo_cons_ok _ _ _ _ _ (hfresh _) h1]
  · intro e1 h1 h2
    rw [download_images_with_fallback, imageFormats,
      downloadImagesGo_cons_err _ _ _ _ _ _ (hfresh _) h1,
      downloadImagesGo_cons_ok _ _ _ _ _ (hfresh _) h2]
  · intro e1 e2 h1 h2 h3
    rw [download_images_with_fallback, imageFormats,
      downloadImagesGo_cons_err _ _ _ _ _ _ (hfresh _) h1,
      downloadImagesGo_cons_err _ _ _ _ _ _ (hfresh _) h2,
      downloadImagesGo_cons_ok _ _ _ _ _ (hfresh _) h3]
  · intro e1 e2 e3 h1 h2 h3
    rw [download_images_with_fallback, imageFormats,
      downloadImagesGo_cons_err _ _ _ _ _ _ (hfresh _) h1,
      downloadImagesGo_cons_err _ _ _ _ _ _ (hfresh _) h2,
      downloadImagesGo_cons_err _ _ _ _ _ _ (hfresh _) h3]
    rfl

theorem C7_image_fallback_witness :
    download_images_with_fallback (fun _ => false)
      (fun f => if f = ("k3s-airgap-images-amd64.tar".toList) then .ok ()
                else .error ("404 Not Found".toList))
      ("amd64".toList) =
      (.ok ("k3s-airgap-images-amd64.tar".toList),
       [("k3s-airgap-images-amd64.tar.zst".toList),
        ("k3s-airgap-images-amd64.tar.gz".toList),
        ("k3s-airgap-images-amd64.tar".toList)]) :=
  (C7_image_fallback ("amd64".toList) (fun _ => false)
      (fun f => if f = ("k3s-airgap-images-amd64.tar".toList) then .ok ()
                else .error ("404 Not Found".toList))
      (fun _ => rfl)).2.2.1
    ("404 Not Found".toList) ("404 Not Found".toList)
    rfl rfl rfl

/-- C8: the consent prompt is offered only when the config is interactive
and stdin is a terminal; when the operator declines or the prompt itself
fails the negotiation fails closed with the classified certificate error
carrying domain and reason, and no insecure retry happens; when the
operator accepts, exactly one insecure retry is made, and a failure of
that retry propagates as a fatal error of the retry. -/
theorem C8_cert_negotiation {R : Type} (cfg : HttpClientConfig) (url : RStr)
    (err : ReqwestError) (exDom : RStr → RStr) (env : CertEnv R) :
    (CEvent.prompted ∈ (handle_certificate_error cfg url err exDom env).2 →
      cfg.interactive = true ∧ env.stdinIsTerminal = true)
    ∧ ((env.promptResult = .answered false ∨ env.promptResult = .failed) →
        (handle_certificate_error cfg url err exDom env).1 =
          .error (.CertificateError (exDom url) (extract_cert_error_reason err))
        ∧ CEvent.insecureRetry ∉ (handle_certificate_error cfg url err exDom env).2)
    ∧ (cfg.insecure = false → cfg.interactive = true → env.stdinIsTerminal = true →
        env.promptResult = .answered true →
        ((handle_certificate_error cfg url err exDom env).2.count CEvent.insecureRetry = 1
         ∧ ∀ e2, env.retryResult = .error e2 →
             (handle_certificate_error cfg url err exDom env).1 =
               .error (.InsecureRetryFailed e2))) := by
  unfold handle_certificate_error
  rcases hins : cfg.insecure with _ | _
  · rcases hint : cfg.interactive with _ | _
    · simp
    · rcases hterm : env.stdinIsTerminal with _ | _
      · simp
      · rcases hpr : env.promptResult with ⟨_ | _⟩ | _
        · simp
        · rcases hretry : env.retryResult with e2 | r
          · simp [hretry, List.count_cons]
          · simp [hretry, List.count_cons]
        · simp
  · simp

theorem C8_cert_negotiation_witness :
    (handle_certificate_error (HttpClientConfig.new false) ("https://github.com".toList)
      ⟨"certificate error".toList, false⟩ (fun _ => "github.com".toList)
      (⟨true, .answered true, .error ("boom".toList)⟩ : CertEnv Unit)).2.count
        CEvent.insecureRetry = 1
    ∧ (handle_certificate_error (HttpClientConfig.new false) ("https://github.com".toList)
      ⟨"certificate error".toList, false⟩ (fun _ => "github.com".toList)
      (⟨true, .answered true, .error ("boom".toList)⟩ : CertEnv Unit)).1 =
        .error (.InsecureRetryFailed ("boom".toList)) :=
  ⟨((C8_cert_negotiation (HttpClientConfig.new false) ("https://github.com".toList)
      ⟨"certificate error".toList, false⟩ (fun _ => "github.com".toList)
      (⟨true, .answered true, .error ("boom".toList)⟩ : CertEnv Unit)).2.2
      rfl rfl rfl rfl).1,
   ((C8_cert_negotiation (HttpClientConfig.new false) ("https://github.com".toList)
      ⟨"certificate error".toList, false⟩ (fun _ => "github.com".toList)
      (⟨true, .answered true, .error ("boom".toList)⟩ : CertEnv Unit)).2.2
      rfl rfl rfl rfl).2 ("boom".toList) rfl⟩

/-- C10: every HttpClientConfig constructor sets interactive to the
negation of insecure (the Default impl included), and on a classified
certificate error with an insecure config the negotiation returns the
CertificateError immediately: no prompt, no second request - its event
trace is empty. -/
theorem C10_insecure_never_prompts :
    (∀ b, (HttpClientConfig.new b).interactive = !b)
    ∧ (∀ b t, (HttpClientConfig.with_timeout b t).interactive = !b)
    ∧ (∀ b, (HttpClientConfig.for_downloads b).interactive = !b)
    ∧ (∀ b t, (HttpClientConfig.for_downloads_with_timeout b t).interactive = !b)
    ∧ HttpClientConfig.mkDefault.interactive = !HttpClientConfig.mkDefault.insecure
    ∧ (∀ (R : Type) (cfg : HttpClientConfig) (url : RStr) (err : ReqwestError)
        (exDom : RStr → RStr) (env : CertEnv R), cfg.insecure = true →
        handle_certificate_error cfg url err exDom env =
          (.error (.CertificateError (exDom url) (extract_cert_error_reason err)), [])) := by
  refine ⟨fun b => rfl, fun b t => rfl, fun b => rfl, fun b t => rfl, rfl, ?_⟩
  intro R cfg url err exDom env hins
  unfold handle_certificate_error
  rw [hins]
  rfl

theorem C10_insecure_never_prompts_witness :
    handle_certificate_error (HttpClientConfig.new true) ("https://github.com".toList)
      ⟨"self signed certificate".toList, false⟩ (fun _ => "github.com".toList)
      (⟨true, .answered true, .ok ()⟩ : CertEnv Unit) =
      (.error (.CertificateError ("github.com".toList)
        (extract_cert_error_reason ⟨"self signed certificate".toList, false⟩)), []) :=
  C10_insecure_never_prompts.2.2.2.2.2 Unit (HttpClientConfig.new true)
    ("https://github.com".toList) ⟨"self signed certificate".toList, false⟩
    (fun _ => "github.com".toList) ⟨true, .answered true, .ok ()⟩ rfl

theorem interleave_count {α : Type} [DecidableEq α] {xs ys zs : List α}
    (h : Interleave xs ys zs) (a : α) : zs.count a = xs.count a + ys.count a := by
  induction h with
  | nil => rfl
  | left _ ih => simp [List.count_cons, ih]; omega
  | right _ ih => simp [List.count_cons, ih]; omega

theorem interleave_mem_left {α : Type} {xs ys zs : List α} {a : α}
    (h : Interleave xs ys zs) (ha : a ∈ xs) : a ∈ zs := by
  induction h with
  | nil => cases ha
  | left _ ih =>
    rcases List.mem_cons.mp ha with rfl | ha'
    · exact List.mem_cons_self _ _
    · exact List.mem_cons_of_mem _ (ih ha')
  | right _ ih => exact List.mem_cons_of_mem _ (ih ha)

theorem interleave_mem_or {α : Type} {xs ys zs : List α} {a : α}
    (h : Interleave xs ys zs) (ha : a ∈ zs) : a ∈ xs ∨ a ∈ ys := by
  induction h with
  | nil => cases ha
  | left _ ih =>
    rcases List.mem_cons.mp ha with rfl | ha'
    · exact .inl (List.mem_cons_self _ _)
    · rcases ih ha' with h' | h'
      · exact .inl (List.mem_cons_of_mem _ h')
      · exact .inr h'
  | right _ ih =>
    rcases List.mem_cons.mp ha with rfl | ha'
    · exact .inr (List.mem_cons_self _ _)
    · rcases ih ha' with h' | h'
      · exact .inl h'
      · exact .inr (List.mem_cons_of_mem _ h')

theorem precedes_of_not_mem {α : Type} (a b : α) (l : List α) (h : b ∉ l) : Precedes a b l := by
  intro pre suf heq
  exact absurd (heq ▸ List.mem_append.mpr (.inr (List.mem_cons_self _ _))) h

theorem precedes_after_two {α : Type} (x y a : α) (l : List α) (hax : a ≠ x) (hay : a ≠ y) :
    Precedes y a (x :: y :: l) := by
  intro pre suf heq
  rcases pre with _ | ⟨p, _ | ⟨q, ps⟩⟩
  · injection heq with h1 _
    exact absurd h1.symm hax
  · injection heq with h1 h2
    injection h2 with h2 _
    exact absurd h2.symm hay
  · injection heq with h1 h2
    injection h2 with h2 _
    exact List.mem_cons.mpr (.inr (List.mem_cons.mpr (.inl h2)))

theorem precedes_head_second {α : Type} (x y : α) (l : List α) (hxy : x ≠ y) (hy : y ∉ l) :
    Precedes x y (x :: y :: l) := by
  intro pre suf heq
  rcases pre with _ | ⟨p, _ | ⟨q, ps⟩⟩
  · injection heq with h1 _
    exact absurd h1 hxy
  · injection heq with h1 _
    exact List.mem_cons.mpr (.inl h1)
  · injection heq with h1 h2
    injection h2 with h2 h3
    exfalso
    apply hy
    rw [h3]
    exact List.mem_append.mpr (.inr (List.mem_cons.mpr (.inl rfl)))

theorem interleave_precedes {α : Type} {a b : α} : ∀ {xs ys zs : List α},
    Interleave xs ys zs → Precedes a b xs → b ∉ ys → Precedes a b zs := by
  intro xs ys zs h
  induction h with
  | nil =>
    intro _ _ pre suf heq
    exact absurd heq (by simp)
  | @left x xs' ys' zs' _ ih =>
    intro hp hb pre suf heq
    rcases pre with _ | ⟨p, ps⟩
    · injection heq with h1 h2
      subst h1
      exact absurd (hp [] xs' rfl) (by simp)
    · injection heq with h1 h2
      by_cases hax : a = x
      · exact List.mem_cons.mpr (.inl (hax.trans h1))
      · have hp' : Precedes a b xs' := by
          intro pre' suf' heq'
          rcases List.mem_cons.mp (hp (x :: pre') suf' (by rw [heq']; rfl)) with h' | h'
          · exact absurd h' hax
          · exact h'
        exact List.mem_cons.mpr (.inr (ih hp' hb ps suf h2))
  | @right y ys' xs' zs' _ ih =>
    intro hp hb pre suf heq
    rcases pre with _ | ⟨p, ps⟩
    · injection heq with h1 _
      subst h1
      exact absurd (List.mem_cons_self _ _) hb
    · injection heq with h1 h2
      have hb' : b ∉ xs' := fun hh => hb (List.mem_cons_of_mem _ hh)
      exact List.mem_cons.mpr (.inr (ih hp hb' ps suf h2))

theorem precedes_append_left {α : Type} {a b : α} (l : List α) :
    ∀ p : List α, b ∉ p → Precedes a b l → Precedes a b (p ++ l) := by
  intro p
  induction p with
  | nil =>
    intro _ hp
    simpa using hp
  | cons q qs ih =>
    intro hb hp pre suf heq
    rcases pre with _ | ⟨r, rs⟩
    · injection heq with h1 _
      subst h1
      exact absurd (List.mem_cons_self _ _) hb
    · injection heq with h1 h2
      have := ih (fun hh => hb (List.mem_cons_of_mem _ hh)) hp
      exact List.mem_cons.mpr (.inr (this rs suf h2))

theorem precedes_append_right {α : Type} {a b : α} {l : List α} (s : List α)
    (hp : Precedes a b l) (ha : a ∈ l) : Precedes a b (l ++ s) := by
  intro pre suf heq
  rcases List.append_eq_append_iff.mp heq with ⟨a', h1, _⟩ | ⟨c', h1, h2⟩
  · rw [h1]
    exact List.mem_append.mpr (.inl ha)
  · rcases c' with _ | ⟨b', c''⟩
    · rw [List.append_nil] at h1
      rw [← h1]
      exact ha
    · injection h2 with h2 h3
      subst h2
      exact hp pre c'' (by rw [h1])

theorem interleave_symm {α : Type} {xs ys zs : List α} (h : Interleave xs ys zs) :
    Interleave ys xs zs := by
  induction h with
  | nil => exact .nil
  | left _ ih => exact .right ih
  | right _ ih => exact .left ih

theorem interleave_mem_right {α : Type} {xs ys zs : List α} {a : α}
    (h : Interleave xs ys zs) (ha : a ∈ ys) : a ∈ zs :=
  interleave_mem_left (interleave_symm h) ha

theorem taskTrace_precedes_verify (f : RStr) (ok : Bool) :
    Precedes (PEvent.downloadDone f ok) (PEvent.verifiedFile f) (taskTrace f ok) := by
  cases ok
  · exact precedes_of_not_mem _ _ _ (by simp [taskTrace])
  · have h := precedes_after_two (PEvent.dispatched f) (PEvent.downloadDone f true)
      (PEvent.verifiedFile f) [PEvent.verifiedFile f] (by simp) (by simp)
    simpa [taskTrace] using h

theorem taskTrace_count_verified_self (f : RStr) (ok : Bool) :
    (taskTrace f ok).count (PEvent.verifiedFile f) = (if ok then 1 else 0) := by
  cases ok <;> simp [taskTrace, List.count_cons]

theorem taskTrace_count_verified_other (f g : RStr) (ok : Bool) (h : f ≠ g) :
    (taskTrace f ok).count (PEvent.verifiedFile g) = 0 := by
  cases ok <;> simp [taskTrace, List.count_cons, h]

theorem taskTrace_not_mem_verified (f g : RStr) (ok : Bool) (h : f ≠ g) :
    PEvent.verifiedFile g ∉ taskTrace f ok := by
  cases ok
  · simp [taskTrace]
  · simp [taskTrace]
    exact fun hh => h hh.symm

theorem interleave_append {α : Type} (xs ys : List α) : Interleave xs ys (xs ++ ys) := by
  induction xs with
  | nil =>
    induction ys with
    | nil => exact .nil
    | cons y u ih => exact .right ih
  | cons x u ih => exact .left ih

/-- C9 (amended): in every populate run, the manifest is downloaded and
fully parsed before either artifact download is dispatched; in the
concurrent phase each file that downloads successfully is verified
exactly once, as a continuation of its own download and never before it
completes; but over the whole run the binary is verified once more by
the final post-aggregation re-check of verify_and_print_success, so a
fully successful run verifies the binary twice in total, while the
image bundle is verified exactly once. -/
theorem C9_populate_order (bName iName : RStr) (okB okI aggOk : Bool) (t : List PEvent)
    (hne : bName ≠ iName)
    (hI : Interleave (taskTrace bName okB) (taskTrace iName okI) t) :
    Precedes PEvent.manifestDownloaded PEvent.manifestParsed (populateFull bName aggOk okB t)
    ∧ Precedes PEvent.manifestParsed (PEvent.dispatched bName) (populateFull bName aggOk okB t)
    ∧ Precedes PEvent.manifestParsed (PEvent.dispatched iName) (populateFull bName aggOk okB t)
    ∧ t.count (PEvent.verifiedFile bName) = (if okB then 1 else 0)
    ∧ t.count (PEvent.verifiedFile iName) = (if okI then 1 else 0)
    ∧ Precedes (PEvent.downloadDone bName okB) (PEvent.verifiedFile bName)
        (populateFull bName aggOk okB t)
    ∧ Precedes (PEvent.downloadDone iName okI) (PEvent.verifiedFile iName)
        (populateFull bName aggOk okB t)
    ∧ (populateFull bName aggOk okB t).count (PEvent.verifiedFile bName) =
        (if okB then 1 else 0) + (if aggOk && okB then 1 else 0)
    ∧ (populateFull bName aggOk okB t).count (PEvent.verifiedFile iName) =
        (if okI then 1 else 0) := by
  have hcount : ∀ a : PEvent, t.count a =
      (taskTrace bName okB).count a + (taskTrace iName okI).count a :=
    fun a => interleave_count hI a
  have hcb : t.count (PEvent.verifiedFile bName) = (if okB then 1 else 0) := by
    rw [hcount, taskTrace_count_verified_self,
      taskTrace_count_verified_other iName bName okI (fun h => hne h.symm)]
    simp
  have hci : t.count (PEvent.verifiedFile iName) = (if okI then 1 else 0) := by
    rw [hcount, taskTrace_count_verified_self, taskTrace_count_verified_other bName iName okB hne]
    simp
  have hmem_t : ∀ a : PEvent, a ∈ t → a ∈ taskTrace bName okB ∨ a ∈ taskTrace iName okI :=
    fun a ha => interleave_mem_or hI ha
  have hmP_t : PEvent.manifestParsed ∉ t := by
    intro hmem
    rcases hmem_t _ hmem with h | h <;> revert h <;> cases okB <;> cases okI <;> simp [taskTrace]
  have hvb_full : okB = false → PEvent.verifiedFile bName ∉ populateFull bName aggOk okB t := by
    intro hok hmem
    rw [populateFull, hok] at hmem
    rcases List.mem_append.mp hmem with h | h
    · rcases List.mem_append.mp h with h' | h'
      · revert h'
        simp
      · rcases hmem_t _ h' with h'' | h''
        · rw [hok] at h''
          revert h''
          simp [taskTrace]
        · exact taskTrace_not_mem_verified iName bName okI (fun h => hne h.symm) h''
    · revert h
      simp
  have hvi_full : okI = false → PEvent.verifiedFile iName ∉ populateFull bName aggOk okB t := by
    intro hok hmem
    rw [populateFull] at hmem
    rcases List.mem_append.mp hmem with h | h
    · rcases List.mem_append.mp h with h' | h'
      · revert h'
        simp
      · rcases hmem_t _ h' with h'' | h''
        · exact taskTrace_not_mem_verified bName iName okB hne h''
        · rw [hok] at h''
          revert h''
          simp [taskTrace]
    · split at h
      · rcases List.mem_cons.mp h with h' | h'
        · exact hne (PEvent.verifiedFile.inj h').symm
        · cases h'
      · cases h
  refine ⟨?_, ?_, ?_, hcb, hci, ?_, ?_, ?_, ?_⟩
  · rw [populateFull]
    refine precedes_head_second _ _ _ (by simp) ?_
    intro hmem
    rcases List.mem_append.mp hmem with h | h
    · exact hmP_t h
    · revert h
      split <;> simp
  · exact precedes_after_two _ _ _ _ (by simp) (by simp)
  · exact precedes_after_two _ _ _ _ (by simp) (by simp)
  · cases okB
    · exact precedes_of_not_mem _ _ _ (hvb_full rfl)
    · have hpt : Precedes (PEvent.downloadDone bName true) (PEvent.verifiedFile bName) t :=
        interleave_precedes hI (taskTrace_precedes_verify bName true)
          (taskTrace_not_mem_verified iName bName okI (fun h => hne h.symm))
      have hin : PEvent.downloadDone bName true ∈ t :=
        interleave_mem_left hI (by simp [taskTrace])
      have h2 := precedes_append_right
        (if aggOk && true then [PEvent.verifiedFile bName] else []) hpt hin
      have h3 := precedes_append_left _ [PEvent.manifestDownloaded, PEvent.manifestParsed]
        (by simp) h2
      simpa [populateFull] using h3
  · cases okI
    · exact precedes_of_not_mem _ _ _ (hvi_full rfl)
    · have hpt : Precedes (PEvent.downloadDone iName true) (PEvent.verifiedFile iName) t :=
        interleave_precedes (interleave_symm hI) (taskTrace_precedes_verify iName true)
          (taskTrace_not_mem_verified bName iName okB hne)
      have hin : PEvent.downloadDone iName true ∈ t :=
        interleave_mem_right hI (by simp [taskTrace])
      have h2 := precedes_append_right
        (if aggOk && okB then [PEvent.verifiedFile bName] else []) hpt hin
      have h3 := precedes_append_left _ [PEvent.manifestDownloaded, PEvent.manifestParsed]
        (by simp) h2
      simpa [populateFull] using h3
  · rw [populateFull, List.count_append, List.count_append, hcb]
    cases aggOk <;> cases okB <;> simp [List.count_cons]
  · rw [populateFull, List.count_append, List.count_append, hci]
    cases aggOk <;> cases okB <;> simp [List.count_cons, hne]

/-- C9, counterexample to the claim as stated: in a fully successful run
(both downloads succeed, aggregation succeeds) with the sequential
interleaving of the two task traces, the binary file is verified twice -
once as the continuation of its own download and once more by the final
binary re-check of verify_and_print_success - contradicting the claim
that every successfully downloaded file is verified exactly once. -/
theorem C9_counterexample :
    Interleave (taskTrace ("k3s".toList) true)
      (taskTrace ("k3s-airgap-images-amd64.tar.zst".toList) true)
      (taskTrace ("k3s".toList) true ++
        taskTrace ("k3s-airgap-images-amd64.tar.zst".toList) true)
    ∧ (populateFull ("k3s".toList) true true
        (taskTrace ("k3s".toList) true ++
          taskTrace ("k3s-airgap-images-amd64.tar.zst".toList) true)).count
        (PEvent.verifiedFile ("k3s".toList)) = 2 :=
  ⟨interleave_append _ _, by decide⟩

theorem C9_populate_order_witness :
    (populateFull ("k3s".toList) true true
      (taskTrace ("k3s".toList) true ++
        taskTrace ("k3s-airgap-images-amd64.tar.zst".toList) true)).count
      (PEvent.verifiedFile ("k3s-airgap-images-amd64.tar.zst".toList)) = 1 :=
  (C9_populate_order ("k3s".toList) ("k3s-airgap-images-amd64.tar.zst".toList) true true true
    (taskTrace ("k3s".toList) true ++
      taskTrace ("k3s-airgap-images-amd64.tar.zst".toList) true)
    (by decide) (interleave_append _ _)).2.2.2.2.2.2.2.2
